import Mathlib

/-!
Verification of the Furrballs ARC cache and ball factory.

This file gives a shallow embedding of the ARC eviction policy
(ARCPolicy in Furrballs.h), of the ball factory FurrBall::CreateBall
(Furrballs.cpp) and of the address-snapping helper FurrBall::floorAddress,
and proves or refutes the specified properties.

Modelling conventions:
- Key and Value are both Nat (the template is instantiated by the library
  at size_t and void*, both modelled as machine words).
- std::list with push_front at the MRU end is a Lean List whose head is
  the front (MRU) and whose last element is the back (LRU).
- std::unordered_map is an association list with unique keys; operator
  indexing that default-constructs a missing value is modelled explicitly.
- size_t arithmetic wraps modulo 2^64; the int cast in Touch truncates
  to 32 bits, as in the source.
- popping an empty list (undefined behaviour in C++) makes the operation
  return none; every operation is Option-valued.
- the eviction callback is modelled by an event log: each invocation
  appends the (key, value) pair it was called with.
-/

namespace Furrballs

/-- Machine-word modulus for size_t arithmetic (64 bits). -/
def W : Nat := 2 ^ 64

/-- Value of a size_t seen through static_cast to a 32-bit int. -/
def toInt32 (n : Nat) : Int :=
  let t : Nat := n % 2 ^ 32
  if t < 2 ^ 31 then (t : Int) else (t : Int) - 2 ^ 32

/-- Conversion of a signed integer to size_t (wraparound modulo 2^64). -/
def u64OfInt (i : Int) : Nat := (i % (2 ^ 64 : Int)).toNat

/-- Membership test of std::unordered_map::find against end(). -/
def mapContains (m : List (Nat × Nat)) (k : Nat) : Bool :=
  m.any (fun e => e.1 == k)

/-- Lookup returning the mapped value when the key is present. -/
def mapFind (m : List (Nat × Nat)) (k : Nat) : Option Nat :=
  (m.find? (fun e => e.1 == k)).map (fun e => e.2)

/-- Model of std::unordered_map::erase. -/
def mapErase (m : List (Nat × Nat)) (k : Nat) : List (Nat × Nat) :=
  m.filter (fun e => e.1 != k)

/-- Model of assignment through operator indexing: update if present, else insert. -/
def mapSet (m : List (Nat × Nat)) (k v : Nat) : List (Nat × Nat) :=
  if mapContains m k then m.map (fun e => if e.1 == k then (k, v) else e)
  else m ++ [(k, v)]

/-- Model of a read through operator indexing: a missing key is
default-inserted with value 0 (Value() for the instantiations used). -/
def mapIndex (m : List (Nat × Nat)) (k : Nat) : Nat × List (Nat × Nat) :=
  match mapFind m k with
  | some v => (v, m)
  | none => (0, m ++ [(k, 0)])

/-- State of ARCPolicy: the four lists, the key-value map, the capacity,
the adaptive target p, plus the eviction-callback event log and a flag
recording whether SetEvictionCallback replaced the default no-op. -/
structure ARCState where
  t1 : List Nat
  t2 : List Nat
  b1 : List Nat
  b2 : List Nat
  map : List (Nat × Nat)
  capacity : Nat
  p : Nat
  log : List (Nat × Nat)
  callbackSet : Bool
deriving DecidableEq

namespace ARCPolicy

/-- ARCPolicy constructor: capacity(cap), p(1), all containers empty. -/
def init (cap : Nat) : ARCState :=
  { t1 := [], t2 := [], b1 := [], b2 := [], map := [], capacity := cap,
    p := 1, log := [], callbackSet := false }

/-- ARCPolicy::Contains - membership in the map. -/
def Contains (s : ARCState) (key : Nat) : Bool := mapContains s.map key

/-- ARCPolicy::SetEvictionCallback. -/
def SetEvictionCallback (s : ARCState) : ARCState := { s with callbackSet := true }

/-- ARCPolicy::replace.  Demotes the LRU of t1 into b1 when t1 is
non-empty and (t1.size() > p or (key in b2 and t1.size() == p)), else the
LRU of t2 into b2; the demoted key is erased from the map.  The source
invokes no callback here.  back()/pop_back() on an empty list is none. -/
def replace (key : Nat) (s : ARCState) : Option ARCState :=
  if s.t1 ≠ [] ∧ (s.t1.length > s.p ∨ (key ∈ s.b2 ∧ s.t1.length = s.p)) then
    match s.t1.getLast? with
    | some old =>
      some { s with t1 := s.t1.dropLast, b1 := old :: s.b1, map := mapErase s.map old }
    | none => none
  else
    match s.t2.getLast? with
    | some old =>
      some { s with t2 := s.t2.dropLast, b2 := old :: s.b2, map := mapErase s.map old }
    | none => none

/-- First if-block of ARCPolicy::evict: trim t1 plus b1 to the capacity,
dropping from b1 when t1 is under capacity, else popping the LRU of t1
with a callback invocation (logged with (key, map[key]), where the
indexing default-inserts a missing key); the map is not erased. -/
def evictFirst (s : ARCState) : Option ARCState :=
  if s.t1.length + s.b1.length ≥ s.capacity then
    if s.t1.length < s.capacity then
      match s.b1.getLast? with
      | some _ => some { s with b1 := s.b1.dropLast }
      | none => none
    else
      match s.t1.getLast? with
      | some key =>
        let r := mapIndex s.map key
        some { s with map := r.2, log := s.log ++ [(key, r.1)], t1 := s.t1.dropLast }
      | none => none
  else some s

/-- Second if-block of ARCPolicy::evict: trim the total footprint to
twice the capacity, preferring b2, else popping the LRU of t2 with a
callback invocation; again the map is not erased. -/
def evictSecond (s1 : ARCState) : Option ARCState :=
  if s1.t1.length + s1.t2.length + s1.b1.length + s1.b2.length ≥ 2 * s1.capacity then
    if s1.t2.length + s1.b2.length > s1.capacity then
      match s1.b2.getLast? with
      | some _ => some { s1 with b2 := s1.b2.dropLast }
      | none => none
    else
      match s1.t2.getLast? with
      | some key =>
        let r := mapIndex s1.map key
        some { s1 with map := r.2, log := s1.log ++ [(key, r.1)], t2 := s1.t2.dropLast }
      | none => none
  else some s1

/-- ARCPolicy::evict - the two trimming steps in sequence. -/
def evict (s : ARCState) : Option ARCState :=
  (evictFirst s).bind evictSecond

/-- ARCPolicy::Touch.  The p updates use size_t arithmetic: in the b1
case p + d wraps modulo 2^64 before the min with capacity; in the b2
case static_cast to int then subtraction of an unsigned quantity wraps
modulo 2^64, and the outer max against 0 compares in unsigned arithmetic
(the Windows max macro), hence never clamps. -/
def Touch (key : Nat) (s : ARCState) : Option ARCState :=
  if key ∈ s.t1 then
    some { s with t1 := s.t1.filter (fun x => x != key), t2 := key :: s.t2 }
  else if key ∈ s.t2 then
    some { s with t2 := key :: s.t2.erase key }
  else if key ∈ s.b1 then
    let d := max (s.b2.length / s.b1.length) 1
    match replace key { s with p := min s.capacity ((s.p + d) % W) } with
    | some s1 =>
      some { s1 with b1 := s1.b1.filter (fun x => x != key), t2 := key :: s1.t2,
                     map := mapSet s1.map key 0 }
    | none => none
  else if key ∈ s.b2 then
    let d := max (s.b1.length / s.b2.length) 1
    match replace key { s with p := max 0 (u64OfInt (toInt32 s.p - (d : Int))) } with
    | some s1 =>
      some { s1 with b2 := s1.b2.filter (fun x => x != key), t2 := key :: s1.t2,
                     map := mapSet s1.map key 0 }
    | none => none
  else
    some s

/-- ARCPolicy::Add - evict when map.size() >= capacity, then push the key
at the MRU end of t1 and bind the value. -/
def Add (key value : Nat) (s : ARCState) : Option ARCState :=
  (if s.map.length ≥ s.capacity then evict s else some s).map
    (fun s1 => { s1 with t1 := key :: s1.t1, map := mapSet s1.map key value })

/-- ARCPolicy::Get - Touch then read through operator indexing. -/
def Get (key : Nat) (s : ARCState) : Option (Nat × ARCState) :=
  (Touch key s).map
    (fun s1 => ((mapIndex s1.map key).1, { s1 with map := (mapIndex s1.map key).2 }))

/-- ARCPolicy::Set - update and Touch when resident, else Add. -/
def Set (key value : Nat) (s : ARCState) : Option ARCState :=
  if Contains s key then Touch key { s with map := mapSet s.map key value }
  else Add key value s

end ARCPolicy

/-- Client-visible cache operations. -/
inductive Op where
  | add : Nat → Nat → Op
  | touch : Nat → Op
  | get : Nat → Op
  | set : Nat → Nat → Op
  | contains : Nat → Op
deriving DecidableEq

/-- One operation applied to an ARC state. -/
def step (s : ARCState) (op : Op) : Option ARCState :=
  match op with
  | .add k v => ARCPolicy.Add k v s
  | .touch k => ARCPolicy.Touch k s
  | .get k => (ARCPolicy.Get k s).map (fun r => r.2)
  | .set k v => ARCPolicy.Set k v s
  | .contains _ => some s

/-- Run a sequence of operations from a state. -/
def runOps (s : ARCState) : List Op → Option ARCState
  | [] => some s
  | op :: ops => (step s op).bind (fun s1 => runOps s1 ops)

/-- A key is resident when it is in t1 or t2 and the map holds an entry for it. -/
def resident (s : ARCState) (k : Nat) : Bool :=
  (s.t1.contains k || s.t2.contains k) && mapContains s.map k

/-- The distinct resident keys of a state. -/
def residentSet (s : ARCState) : List Nat :=
  ((s.t1 ++ s.t2).filter (resident s)).dedup

/-- Number of resident-to-non-resident transitions along a run: at each
step, the number of distinct keys resident before and not after. -/
def transitions (s : ARCState) : List Op → Option Nat
  | [] => some 0
  | op :: rest => do
    let s1 ← step s op
    let n ← transitions s1 rest
    pure (((residentSet s).filter (fun k => ! resident s1 k)).length + n)

/-- Reachability invariant of ARCPolicy: the ghost lists stay empty and
every key on a resident list has a map entry. -/
def Inv (s : ARCState) : Prop :=
  s.b1 = [] ∧ s.b2 = [] ∧ ∀ k, k ∈ s.t1 ∨ k ∈ s.t2 → mapContains s.map k = true

/-- Fields of FurrConfig used by CreateBall (defaults from Furrballs.h). -/
structure FurrConfig where
  CapacityLimit : Nat := 1024 * 1024
  InitialPageCount : Nat := 2
  PageSize : Nat := 4096
  LockablePages : Bool := false
deriving DecidableEq

/-- Model of a FurrBall: the backing ARC cache (copied in by the
constructor), page size, size limit and the number of registered frames. -/
structure FurrBall where
  cache : ARCState
  PageSize : Nat
  SizeLimit : Nat
  vPageCount : Nat
  PreallocatedSlabSize : Nat
  UsedMemory : Nat
deriving DecidableEq

/-- Environment of CreateBall: outcome of the store open, available
memory reported by the memory manager, and outcome of the slab malloc. -/
structure CreateEnv where
  openOk : Bool
  availMem : Nat
  mallocOk : Bool
deriving DecidableEq

/-- Result of the loop while((--numPages) || availMem < PageSize * numPages).
The first operand keeps the loop running until numPages reaches 0, where
the second operand availMem < PageSize * 0 is false, so the loop always
exits with numPages = 0.  Entering with 0 wraps the size_t decrement to
2^64 - 1 and then marches down to the same result 0. -/
def shrinkPages (availMem pageSize : Nat) : Nat → Nat
  | 0 => 0
  | n + 1 =>
    if n = 0 then (if availMem < pageSize * n then 0 else n)
    else shrinkPages availMem pageSize n

/-- Page-registration loop of CreateBall: numPages calls of
Cache.Add(PagePointer, slab + PagePointer) on the local cache, with
PagePointer never incremented, hence key 0 each time (the value is the
slab base, irrelevant to the cache state shape, modelled as 0). -/
def registerPages : Nat → ARCState → Option ARCState
  | 0, c => some c
  | n + 1, c => do
    let c1 ← ARCPolicy.Add 0 0 c
    registerPages n c1

/-- Number of pages CreateBall settles on: the configured initial count
when it fits in available memory, else the result of the shrink loop,
rejected when it is zero (the log message Not enough memory). -/
def computeNumPages (availMem pageSize initialPageCount : Nat) : Option Nat :=
  if availMem < pageSize * initialPageCount then
    let n := shrinkPages availMem pageSize initialPageCount
    if n ≤ 0 then none else some n
  else
    some initialPageCount

/-- FurrBall::CreateBall.  Returns none on store-open failure, on the
insufficient-memory path, and on malloc failure; otherwise builds the
ball from the freshly constructed local cache (copied by the FurrBall
constructor before the registration loop runs), runs the registration
loop and SetEvictionCallback on the local copy only, and registers the
ball in the open-balls list. -/
def CreateBall (env : CreateEnv) (config : FurrConfig) (openBalls : List FurrBall) :
    Option (FurrBall × List FurrBall) :=
  if env.openOk = false then none
  else
    match computeNumPages env.availMem config.PageSize config.InitialPageCount with
    | none => none
    | some numPages =>
      if env.mallocOk = false then none
      else
        let localCache := ARCPolicy.init numPages
        let fb : FurrBall :=
          { cache := localCache, PageSize := config.PageSize,
            SizeLimit := if config.CapacityLimit = 0 then 1024 * 1024 else config.CapacityLimit,
            vPageCount := numPages,
            PreallocatedSlabSize := config.PageSize * numPages,
            UsedMemory := config.PageSize * numPages }
        let _discardedLocal := (registerPages numPages localCache).map ARCPolicy.SetEvictionCallback
        some (fb, openBalls ++ [fb])

/-- Bitwise complement of a size_t value on 64 bits. -/
def complement64 (x : Nat) : Nat := (W - 1) - (x % W)

/-- FurrBall::floorAddress - address & ~(PageSize - 1), with the size_t
subtraction PageSize - 1 wrapping modulo 2^64. -/
def floorAddress (pageSize address : Nat) : Nat :=
  address &&& complement64 ((pageSize + W - 1) % W)

/-- Operation sequence exhibiting the resident-bound violation. -/
def c1ops : List Op := [Op.add 0 10, Op.touch 0, Op.add 1 11]

/-- State on which Touch's b2 case wraps p around: t1 = [5], t2 = [8],
b2 = [1], p = 0, capacity 2. -/
def c2state : ARCState :=
  { t1 := [5], t2 := [8], b1 := [], b2 := [1], map := [(5, 7), (8, 9)],
    capacity := 2, p := 0, log := [], callbackSet := false }

/-- State on which replace demotes from t1: t1 = [5], p = 0. -/
def c3state : ARCState :=
  { t1 := [5], t2 := [], b1 := [], b2 := [], map := [(5, 7)],
    capacity := 2, p := 0, log := [], callbackSet := false }

/-- Sequence whose final map strictly contains t1 union t2. -/
def c4opsA : List Op := [Op.add 0 10, Op.add 1 11]

/-- Sequence after which t1 and t2 are not disjoint. -/
def c4opsB : List Op := [Op.add 0 10, Op.touch 0, Op.add 0 11]

/-- Sequence with one callback invocation but no loss of residency. -/
def c5ops : List Op := [Op.add 0 10, Op.add 0 11, Op.add 1 12, Op.add 2 13]

/-- Sequence driving evict into b2.pop_back() with b2 empty. -/
def c6ops : List Op := [Op.add 0 10, Op.touch 0, Op.add 1 11, Op.touch 1, Op.add 2 12]

/-- State used to witness the evict accounting theorem. -/
def wstate : ARCState :=
  { t1 := [3], t2 := [], b1 := [], b2 := [], map := [(3, 4)],
    capacity := 1, p := 0, log := [], callbackSet := false }

/-- Result of evict on wstate: one callback logged, t1 popped. -/
def w5state : ARCState :=
  { t1 := [], t2 := [], b1 := [], b2 := [], map := [(3, 4)],
    capacity := 1, p := 0, log := [(3, 4)], callbackSet := false }

/-- Result of replace 9 on c3state. -/
def c3result : ARCState :=
  { t1 := [], t2 := [], b1 := [5], b2 := [], map := [],
    capacity := 2, p := 0, log := [], callbackSet := false }

/-- State after running Add 0 10 from a fresh capacity 1 cache. -/
def w7state : ARCState :=
  { t1 := [0], t2 := [], b1 := [], b2 := [], map := [(0, 10)],
    capacity := 1, p := 1, log := [], callbackSet := false }

/-- State after running Add 0 10 then Touch 0 from a fresh capacity 2 cache. -/
def w4state : ARCState :=
  { t1 := [], t2 := [0], b1 := [], b2 := [], map := [(0, 10)],
    capacity := 2, p := 1, log := [], callbackSet := false }

/-- Environment in which every external step of CreateBall succeeds. -/
def envOk : CreateEnv := { openOk := true, availMem := 1000000000, mallocOk := true }

/-- Environment with memory for exactly one default page. -/
def envOnePage : CreateEnv := { openOk := true, availMem := 4096, mallocOk := true }

/-- The ball CreateBall builds in envOk under the default configuration. -/
def fbOk : FurrBall :=
  { cache := ARCPolicy.init 2, PageSize := 4096, SizeLimit := 1024 * 1024,
    vPageCount := 2, PreallocatedSlabSize := 8192, UsedMemory := 8192 }

theorem mapContains_mapSet_self (m : List (Nat × Nat)) (k v : Nat) :
    mapContains (mapSet m k v) k = true := by
  unfold mapSet
  split
  case isTrue h =>
    unfold mapContains at h ⊢
    rw [List.any_eq_true] at h ⊢
    obtain ⟨e, he, hk⟩ := h
    refine ⟨(k, v), ?_, by simp⟩
    exact List.mem_map.mpr ⟨e, he, by simp [hk]⟩
  case isFalse h =>
    unfold mapContains
    rw [List.any_eq_true]
    exact ⟨(k, v), by simp, by simp⟩

theorem mapContains_mapSet_of (m : List (Nat × Nat)) (k v q : Nat)
    (h : mapContains m q = true) : mapContains (mapSet m k v) q = true := by
  unfold mapSet
  split
  case isTrue hp =>
    unfold mapContains at h ⊢
    rw [List.any_eq_true] at h ⊢
    obtain ⟨e, he, hq⟩ := h
    by_cases hek : (e.1 == k) = true
    · refine ⟨(k, v), ?_, ?_⟩
      · exact List.mem_map.mpr ⟨e, he, by simp [hek]⟩
      · simp only [beq_iff_eq] at hek hq ⊢
        omega
    · rw [Bool.not_eq_true] at hek
      refine ⟨e, ?_, hq⟩
      exact List.mem_map.mpr ⟨e, he, by simp [hek]⟩
  case isFalse hp =>
    unfold mapContains at h ⊢
    rw [List.any_eq_true] at h ⊢
    obtain ⟨e, he, hq⟩ := h
    exact ⟨e, List.mem_append_left _ he, hq⟩

theorem mapContains_mapIndex_of (m : List (Nat × Nat)) (k q : Nat)
    (h : mapContains m q = true) : mapContains (mapIndex m k).2 q = true := by
  unfold mapIndex
  cases hf : mapFind m k with
  | some v => simpa using h
  | none =>
    unfold mapContains at h ⊢
    rw [List.any_eq_true] at h ⊢
    obtain ⟨e, he, hq⟩ := h
    exact ⟨e, List.mem_append_left _ he, hq⟩

theorem mapContains_mapErase_self (m : List (Nat × Nat)) (k : Nat) :
    mapContains (mapErase m k) k = false := by
  induction m with
  | nil => rfl
  | cons e rest ih =>
    by_cases he : e.1 = k
    · simp only [mapContains, mapErase] at ih ⊢
      simp [he, ih]
    · simp only [mapContains, mapErase] at ih ⊢
      simp [he, ih]

theorem evictFirst_inv (s s1 : ARCState) (hI : Inv s)
    (h : ARCPolicy.evictFirst s = some s1) : Inv s1 := by
  obtain ⟨hb1, hb2, hmem⟩ := hI
  unfold ARCPolicy.evictFirst at h
  split at h
  · split at h
    · rw [hb1] at h
      simp at h
    · cases ht : s.t1.getLast? with
      | none => rw [ht] at h; exact absurd h (by simp)
      | some key =>
        rw [ht] at h
        simp only [Option.some.injEq] at h
        subst h
        refine ⟨hb1, hb2, ?_⟩
        intro k hk
        apply mapContains_mapIndex_of
        apply hmem
        rcases hk with hk | hk
        · exact Or.inl ((List.dropLast_sublist s.t1).subset hk)
        · exact Or.inr hk
  · simp only [Option.some.injEq] at h
    subst h
    exact ⟨hb1, hb2, hmem⟩

theorem evictSecond_inv (s s1 : ARCState) (hI : Inv s)
    (h : ARCPolicy.evictSecond s = some s1) : Inv s1 := by
  obtain ⟨hb1, hb2, hmem⟩ := hI
  unfold ARCPolicy.evictSecond at h
  split at h
  · split at h
    · rw [hb2] at h
      simp at h
    · cases ht : s.t2.getLast? with
      | none => rw [ht] at h; exact absurd h (by simp)
      | some key =>
        rw [ht] at h
        simp only [Option.some.injEq] at h
        subst h
        refine ⟨hb1, hb2, ?_⟩
        intro k hk
        apply mapContains_mapIndex_of
        apply hmem
        rcases hk with hk | hk
        · exact Or.inl hk
        · exact Or.inr ((List.dropLast_sublist s.t2).subset hk)
  · simp only [Option.some.injEq] at h
    subst h
    exact ⟨hb1, hb2, hmem⟩

theorem evict_inv (s s1 : ARCState) (hI : Inv s)
    (h : ARCPolicy.evict s = some s1) : Inv s1 := by
  unfold ARCPolicy.evict at h
  cases hf : ARCPolicy.evictFirst s with
  | none => rw [hf] at h; exact absurd h (by simp)
  | some sa =>
    rw [hf] at h
    simp only [Option.some_bind] at h
    exact evictSecond_inv sa s1 (evictFirst_inv s sa hI hf) h

theorem Touch_inv (key : Nat) (s s1 : ARCState) (hI : Inv s)
    (h : ARCPolicy.Touch key s = some s1) : Inv s1 := by
  obtain ⟨hb1, hb2, hmem⟩ := hI
  unfold ARCPolicy.Touch at h
  split at h
  case isTrue ht1 =>
    simp only [Option.some.injEq] at h
    subst h
    refine ⟨hb1, hb2, ?_⟩
    intro k hk
    rcases hk with hk | hk
    · exact hmem k (Or.inl (List.mem_of_mem_filter hk))
    · rcases List.mem_cons.mp hk with hk | hk
      · subst hk; exact hmem k (Or.inl ht1)
      · exact hmem k (Or.inr hk)
  case isFalse ht1 =>
    split at h
    case isTrue ht2 =>
      simp only [Option.some.injEq] at h
      subst h
      refine ⟨hb1, hb2, ?_⟩
      intro k hk
      rcases hk with hk | hk
      · exact hmem k (Or.inl hk)
      · rcases List.mem_cons.mp hk with hk | hk
        · subst hk; exact hmem k (Or.inr ht2)
        · exact hmem k (Or.inr (List.erase_subset _ _ hk))
    case isFalse ht2 =>
      split at h
      case isTrue hB1 =>
        rw [hb1] at hB1
        exact absurd hB1 (by simp)
      case isFalse hB1 =>
        split at h
        case isTrue hB2 =>
          rw [hb2] at hB2
          exact absurd hB2 (by simp)
        case isFalse hB2 =>
          simp only [Option.some.injEq] at h
          subst h
          exact ⟨hb1, hb2, hmem⟩

theorem Add_inv (key value : Nat) (s s1 : ARCState) (hI : Inv s)
    (h : ARCPolicy.Add key value s = some s1) : Inv s1 := by
  unfold ARCPolicy.Add at h
  have step1 : ∀ sa : ARCState, Inv sa →
      s1 = { sa with t1 := key :: sa.t1, map := mapSet sa.map key value } → Inv s1 := by
    intro sa hIa hs1
    obtain ⟨hab1, hab2, hamem⟩ := hIa
    subst hs1
    refine ⟨hab1, hab2, ?_⟩
    intro k hk
    rcases hk with hk | hk
    · rcases List.mem_cons.mp hk with hk | hk
      · subst hk; exact mapContains_mapSet_self _ _ _
      · exact mapContains_mapSet_of _ _ _ _ (hamem k (Or.inl hk))
    · exact mapContains_mapSet_of _ _ _ _ (hamem k (Or.inr hk))
  split at h
  · cases he : ARCPolicy.evict s with
    | none => rw [he] at h; exact absurd h (by simp)
    | some sa =>
      rw [he] at h
      simp only [Option.map_some', Option.some.injEq] at h
      exact step1 sa (evict_inv s sa hI he) h.symm
  · simp only [Option.map_some', Option.some.injEq] at h
    exact step1 s hI h.symm

theorem Get_inv (key : Nat) (s : ARCState) (r : Nat × ARCState) (hI : Inv s)
    (h : ARCPolicy.Get key s = some r) : Inv r.2 := by
  unfold ARCPolicy.Get at h
  cases ht : ARCPolicy.Touch key s with
  | none => rw [ht] at h; exact absurd h (by simp)
  | some sa =>
    rw [ht] at h
    simp only [Option.map_some', Option.some.injEq] at h
    obtain ⟨hab1, hab2, hamem⟩ := Touch_inv key s sa hI ht
    subst h
    refine ⟨hab1, hab2, ?_⟩
    intro k hk
    exact mapContains_mapIndex_of _ _ _ (hamem k hk)

theorem Set_inv (key value : Nat) (s s1 : ARCState) (hI : Inv s)
    (h : ARCPolicy.Set key value s = some s1) : Inv s1 := by
  unfold ARCPolicy.Set at h
  split at h
  · obtain ⟨hb1, hb2, hmem⟩ := hI
    exact Touch_inv key { s with map := mapSet s.map key value } s1
      ⟨hb1, hb2, fun k hk => mapContains_mapSet_of _ _ _ _ (hmem k hk)⟩ h
  · exact Add_inv key value s s1 hI h

theorem step_inv (s s1 : ARCState) (op : Op) (hI : Inv s)
    (h : step s op = some s1) : Inv s1 := by
  cases op with
  | add k v => exact Add_inv k v s s1 hI h
  | touch k => exact Touch_inv k s s1 hI h
  | get k =>
    simp only [step] at h
    cases hg : ARCPolicy.Get k s with
    | none => rw [hg] at h; exact absurd h (by simp)
    | some r =>
      rw [hg] at h
      simp only [Option.map_some', Option.some.injEq] at h
      subst h
      exact Get_inv k s r hI hg
  | set k v => exact Set_inv k v s s1 hI h
  | contains k =>
    simp only [step, Option.some.injEq] at h
    subst h
    exact hI

theorem runOps_inv (ops : List Op) (s s1 : ARCState) (hI : Inv s)
    (h : runOps s ops = some s1) : Inv s1 := by
  induction ops generalizing s with
  | nil =>
    simp only [runOps, Option.some.injEq] at h
    subst h
    exact hI
  | cons op rest ih =>
    unfold runOps at h
    cases hs : step s op with
    | none => rw [hs] at h; exact absurd h (by simp)
    | some sa =>
      rw [hs] at h
      simp only [Option.some_bind] at h
      exact ih sa (step_inv s sa op hI hs) h

/-- C1: after capacity 1 and the operations Add 0, Touch 0, Add 1, the
cache holds 2 resident list entries, exceeding its capacity 1: Add only
makes room when map.size() >= capacity, and evict trims nothing when t1
is empty and the total list length is below twice the capacity. -/
theorem c1_resident_bound_violated :
    (runOps (ARCPolicy.init 1) c1ops).map (fun s => (s.t1.length + s.t2.length, s.capacity))
      = some (2, 1) := by
  decide

/-- C6: the sequence Add 0, Touch 0, Add 1, Touch 1, Add 2 on a capacity 1
cache reaches the b2.pop_back() call of evict with b2 empty; the run
errors, so the empty-pop branch is reachable from the initial state. -/
theorem c6_empty_pop_reachable :
    runOps (ARCPolicy.init 1) c6ops = none := by
  decide

/-- C2: touching a key of b2 with p = 0 sets p to 2^64 - 1 instead of
clamping at 0: the subtraction int(p) - max(|b1| / |b2|, 1) is performed
in unsigned 64-bit arithmetic and wraps; with p now huge, replace demotes
from t2 into b2 (b2 becomes [8]) rather than from t1 as the clamped
update would dictate. -/
theorem c2_touch_b2_wraps :
    (ARCPolicy.Touch 1 c2state).map (fun s => (s.p, s.b1, s.b2))
      = some (2 ^ 64 - 1, [], [8]) := by
  decide

/-- C3 counterexample: on t1 = [5], p = 0, map = [(5, 7)], replace demotes
5 into b1 and erases it from the map, yet the eviction-callback log stays
empty - the callback is never invoked with the outgoing (5, 7), contrary
to the claim that removal happens only after the callback has fired. -/
theorem c3_replace_no_callback_cex :
    (ARCPolicy.replace 9 c3state).map (fun s => (s.b1, mapContains s.map 5, s.log))
      = some ([5], false, []) := by
  decide

/-- C4 counterexample: with capacity 1, after Add 0 and Add 1 the map
still holds key 0 (evict fires the callback but never erases the map), so
Contains 0 is true although 0 is in neither t1 nor t2; and with capacity
2, after Add 0, Touch 0, Add 0 the key 0 sits in t1 and in t2 at once, so
the lists are not pairwise disjoint. -/
theorem c4_coherence_cex :
    (runOps (ARCPolicy.init 1) c4opsA).map
        (fun s => (ARCPolicy.Contains s 0, decide (0 ∈ s.t1 ∨ 0 ∈ s.t2))) = some (true, false)
    ∧ (runOps (ARCPolicy.init 2) c4opsB).map
        (fun s => (decide (0 ∈ s.t1), decide (0 ∈ s.t2))) = some (true, true) := by
  constructor
  · decide
  · decide

/-- C5 counterexample: with capacity 2, the sequence Add 0, Add 0, Add 1,
Add 2 invokes the eviction callback once (evict pops the LRU copy of 0
out of t1), yet no key ever stops being resident - 0 still occurs in t1
and keeps its map entry at every step - so invocations exceed
resident-to-non-resident transitions. -/
theorem c5_callback_accounting_cex :
    transitions (ARCPolicy.init 2) c5ops = some 0
    ∧ (runOps (ARCPolicy.init 2) c5ops).map (fun s => s.log.length) = some 1 := by
  constructor
  · decide
  · decide

/-- C8: with the store open succeeding, 4096 bytes of available memory,
malloc succeeding, and the default configuration (page size 4096, initial
page count 2), CreateBall returns null even though memory suffices for
one page: the shrink loop always drives numPages to 0, so the
insufficient-memory path is taken whenever the initial request does not
fit. -/
theorem c8_create_ball_shrink_never_succeeds :
    CreateBall envOnePage {} [] = none := by
  decide

/-- C7: for every capacity and every sequence of operations from a fresh
ARCPolicy, as long as no empty-list pop has faulted, the ghost lists b1
and b2 are empty - keys reach b1/b2 only through replace, which is only
called from the Touch branches guarded by membership in b1 or b2. -/
theorem c7_ghost_lists_stay_empty (cap : Nat) (ops : List Op) (s : ARCState)
    (h : runOps (ARCPolicy.init cap) ops = some s) : s.b1 = [] ∧ s.b2 = [] := by
  have hI : Inv s := runOps_inv ops (ARCPolicy.init cap) s ⟨rfl, rfl, by intro k hk; rcases hk with hk | hk <;> simp [ARCPolicy.init] at hk⟩ h
  exact ⟨hI.1, hI.2.1⟩

theorem c7_ghost_lists_stay_empty_witness :
    runOps (ARCPolicy.init 1) [Op.add 0 10] = some w7state
    ∧ (w7state.b1 = [] ∧ w7state.b2 = []) :=
  ⟨by decide, c7_ghost_lists_stay_empty 1 [Op.add 0 10] w7state (by decide)⟩

/-- C4 (amended): along every non-faulting run from a fresh ARCPolicy,
every key held in t1 or t2 has a map entry, so Contains is true on all
of t1 and t2; the converse inclusion fails (see the counterexample), so
the map key set is a superset of t1 union t2, not an equality, and the
resident lists need not be duplicate-free or disjoint. -/
theorem c4_resident_lists_subset_map (cap : Nat) (ops : List Op) (s : ARCState)
    (h : runOps (ARCPolicy.init cap) ops = some s) :
    ∀ k, k ∈ s.t1 ∨ k ∈ s.t2 → ARCPolicy.Contains s k = true := by
  have hI : Inv s := runOps_inv ops (ARCPolicy.init cap) s ⟨rfl, rfl, by intro k hk; rcases hk with hk | hk <;> simp [ARCPolicy.init] at hk⟩ h
  exact hI.2.2

theorem c4_resident_lists_subset_map_witness :
    runOps (ARCPolicy.init 2) [Op.add 0 10, Op.touch 0] = some w4state
    ∧ (0 ∈ w4state.t1 ∨ 0 ∈ w4state.t2)
    ∧ ARCPolicy.Contains w4state 0 = true :=
  ⟨by decide, by decide,
   c4_resident_lists_subset_map 2 [Op.add 0 10, Op.touch 0] w4state (by decide) 0 (by decide)⟩

/-- C3 (amended): replace demotes the LRU of t1 into the MRU end of b1
exactly when t1 is non-empty and (either t1 is longer than p, or the key
is in b2 and t1 has length exactly p), and otherwise demotes the LRU of
t2 into the MRU end of b2; in both branches the demoted key is erased
from the map, but the eviction callback is never invoked (the log is
unchanged). -/
theorem c3_replace_demotes_without_callback (key : Nat) (s s1 : ARCState)
    (h : ARCPolicy.replace key s = some s1) :
    s1.log = s.log ∧
    (if s.t1 ≠ [] ∧ (s.t1.length > s.p ∨ (key ∈ s.b2 ∧ s.t1.length = s.p)) then
      s1.t1 = s.t1.dropLast ∧ ∀ old, s.t1.getLast? = some old →
        s1.b1 = old :: s.b1 ∧ mapContains s1.map old = false
    else
      s1.t2 = s.t2.dropLast ∧ ∀ old, s.t2.getLast? = some old →
        s1.b2 = old :: s.b2 ∧ mapContains s1.map old = false) := by
  unfold ARCPolicy.replace at h
  by_cases hc : s.t1 ≠ [] ∧ (s.t1.length > s.p ∨ (key ∈ s.b2 ∧ s.t1.length = s.p))
  · rw [if_pos hc] at h
    rw [if_pos hc]
    cases ht : s.t1.getLast? with
    | none => rw [ht] at h; exact absurd h (by simp)
    | some old =>
      rw [ht] at h
      simp only [Option.some.injEq] at h
      subst h
      refine ⟨rfl, rfl, ?_⟩
      intro old2 h2
      simp only [Option.some.injEq] at h2
      subst h2
      exact ⟨rfl, mapContains_mapErase_self _ _⟩
  · rw [if_neg hc] at h
    rw [if_neg hc]
    cases ht : s.t2.getLast? with
    | none => rw [ht] at h; exact absurd h (by simp)
    | some old =>
      rw [ht] at h
      simp only [Option.some.injEq] at h
      subst h
      refine ⟨rfl, rfl, ?_⟩
      intro old2 h2
      simp only [Option.some.injEq] at h2
      subst h2
      exact ⟨rfl, mapContains_mapErase_self _ _⟩

theorem c3_replace_demotes_without_callback_witness :
    ARCPolicy.replace 9 c3state = some c3result
    ∧ (c3result.log = c3state.log ∧
      (if c3state.t1 ≠ [] ∧ (c3state.t1.length > c3state.p ∨
          (9 ∈ c3state.b2 ∧ c3state.t1.length = c3state.p)) then
        c3result.t1 = c3state.t1.dropLast ∧ ∀ old, c3state.t1.getLast? = some old →
          c3result.b1 = old :: c3state.b1 ∧ mapContains c3result.map old = false
      else
        c3result.t2 = c3state.t2.dropLast ∧ ∀ old, c3state.t2.getLast? = some old →
          c3result.b2 = old :: c3state.b2 ∧ mapContains c3result.map old = false)) :=
  ⟨by decide, c3_replace_demotes_without_callback 9 c3state c3result (by decide)⟩

/-- C5 (amended): each successful call to evict invokes the eviction
callback exactly once per element it pops from t1 or t2 and never when
it pops from b1 or b2: the callback log grows by exactly the number of
elements removed from the resident lists.  Such a pop need not be a
resident-to-non-resident transition, because the popped key is not
erased from the map and may occur elsewhere in the lists (see the
counterexample). -/
theorem c5_evict_logs_resident_pops (s s1 : ARCState)
    (h : ARCPolicy.evict s = some s1) :
    s1.log.length + s1.t1.length + s1.t2.length
      = s.log.length + s.t1.length + s.t2.length := by
  have hfirst : ∀ a b : ARCState, ARCPolicy.evictFirst a = some b →
      b.log.length + b.t1.length + b.t2.length
        = a.log.length + a.t1.length + a.t2.length := by
    intro a b hf
    unfold ARCPolicy.evictFirst at hf
    split at hf
    · split at hf
      · cases hg : a.b1.getLast? with
        | none => rw [hg] at hf; exact absurd hf (by simp)
        | some x =>
          rw [hg] at hf
          simp only [Option.some.injEq] at hf
          subst hf
          rfl
      · cases hg : a.t1.getLast? with
        | none => rw [hg] at hf; exact absurd hf (by simp)
        | some x =>
          rw [hg] at hf
          simp only [Option.some.injEq] at hf
          subst hf
          have hne : a.t1 ≠ [] := by
            intro he
            rw [he] at hg
            exact absurd hg (by simp)
          have hpos : 0 < a.t1.length := List.length_pos.mpr hne
          simp only [List.length_append, List.length_dropLast, List.length_cons,
            List.length_nil]
          omega
    · simp only [Option.some.injEq] at hf
      subst hf
      rfl
  have hsecond : ∀ a b : ARCState, ARCPolicy.evictSecond a = some b →
      b.log.length + b.t1.length + b.t2.length
        = a.log.length + a.t1.length + a.t2.length := by
    intro a b hf
    unfold ARCPolicy.evictSecond at hf
    split at hf
    · split at hf
      · cases hg : a.b2.getLast? with
        | none => rw [hg] at hf; exact absurd hf (by simp)
        | some x =>
          rw [hg] at hf
          simp only [Option.some.injEq] at hf
          subst hf
          rfl
      · cases hg : a.t2.getLast? with
        | none => rw [hg] at hf; exact absurd hf (by simp)
        | some x =>
          rw [hg] at hf
          simp only [Option.some.injEq] at hf
          subst hf
          have hne : a.t2 ≠ [] := by
            intro he
            rw [he] at hg
            exact absurd hg (by simp)
          have hpos : 0 < a.t2.length := List.length_pos.mpr hne
          simp only [List.length_append, List.length_dropLast, List.length_cons,
            List.length_nil]
          omega
    · simp only [Option.some.injEq] at hf
      subst hf
      rfl
  unfold ARCPolicy.evict at h
  cases hf : ARCPolicy.evictFirst s with
  | none => rw [hf] at h; exact absurd h (by simp)
  | some sa =>
    rw [hf] at h
    simp only [Option.some_bind] at h
    rw [hsecond sa s1 h, hfirst s sa hf]

theorem c5_evict_logs_resident_pops_witness :
    ARCPolicy.evict wstate = some w5state
    ∧ w5state.log.length + w5state.t1.length + w5state.t2.length
        = wstate.log.length + wstate.t1.length + wstate.t2.length :=
  ⟨by decide, c5_evict_logs_resident_pops wstate w5state (by decide)⟩

/-- C9: whenever CreateBall returns a ball, the ball's backing cache is
the freshly constructed ARC state: Contains is false for every key and
the eviction callback is still the default no-op.  The page-registration
loop and SetEvictionCallback act on the local cache value, which was
copied into the ball by the FurrBall constructor before the loop ran. -/
theorem c9_returned_cache_is_fresh (env : CreateEnv) (config : FurrConfig)
    (balls : List FurrBall) (fb : FurrBall) (balls2 : List FurrBall)
    (h : CreateBall env config balls = some (fb, balls2)) :
    (∀ k, ARCPolicy.Contains fb.cache k = false) ∧ fb.cache.callbackSet = false := by
  unfold CreateBall at h
  split at h
  · exact absurd h (by simp)
  · split at h
    · exact absurd h (by simp)
    · split at h
      · exact absurd h (by simp)
      · simp only [Option.some.injEq, Prod.mk.injEq] at h
        obtain ⟨hfb, _⟩ := h
        subst hfb
        exact ⟨fun k => rfl, rfl⟩

theorem c9_returned_cache_is_fresh_witness :
    CreateBall envOk {} [] = some (fbOk, [fbOk])
    ∧ ARCPolicy.Contains fbOk.cache 42 = false
    ∧ fbOk.cache.callbackSet = false :=
  ⟨by decide,
   (c9_returned_cache_is_fresh envOk {} [] fbOk [fbOk] (by decide)).1 42,
   (c9_returned_cache_is_fresh envOk {} [] fbOk [fbOk] (by decide)).2⟩

theorem land_block (k m v : Nat) (hv : v < 2 ^ (k + m)) :
    v &&& (2 ^ k * (2 ^ m - 1)) = 2 ^ k * (v / 2 ^ k) := by
  apply Nat.eq_of_testBit_eq
  intro i
  rw [Nat.testBit_land]
  have hmask : (2 ^ k * (2 ^ m - 1)) = (2 ^ m - 1) <<< k := by
    rw [Nat.shiftLeft_eq, Nat.mul_comm]
  have hrhs : 2 ^ k * (v / 2 ^ k) = (v >>> k) <<< k := by
    rw [Nat.shiftLeft_eq, Nat.shiftRight_eq_div_pow, Nat.mul_comm]
  rw [hmask, hrhs, Nat.testBit_shiftLeft, Nat.testBit_shiftLeft, Nat.testBit_shiftRight,
    Nat.testBit_two_pow_sub_one]
  by_cases hik : k ≤ i
  · have h1 : (decide (i ≥ k)) = true := decide_eq_true hik
    rw [h1]
    have h2 : k + (i - k) = i := by omega
    rw [h2]
    by_cases him : i - k < m
    · rw [decide_eq_true him]
      simp
    · have hbit : v.testBit i = false := by
        apply Nat.testBit_lt_two_pow
        calc v < 2 ^ (k + m) := hv
        _ ≤ 2 ^ i := Nat.pow_le_pow_right (by omega) (by omega)
      rw [hbit, decide_eq_false him]
      simp
  · have h1 : (decide (i ≥ k)) = false := decide_eq_false hik
    rw [h1]
    simp

/-- C10: for a power-of-two page size and any 64-bit virtual address v,
floorAddress computes pageSize times the page id v / pageSize, is
idempotent, and preserves the page id, so a lookup keyed on the page id
of v and one keyed on the page id of the snapped address resolve to the
same page. -/
theorem c10_address_snapping (pageSize v : Nat)
    (hp : ∃ i, i < 64 ∧ pageSize = 2 ^ i) (hv : v < 2 ^ 64) :
    floorAddress pageSize v = pageSize * (v / pageSize)
    ∧ floorAddress pageSize (floorAddress pageSize v) = floorAddress pageSize v
    ∧ floorAddress pageSize v / pageSize = v / pageSize := by
  obtain ⟨i, hi, rfl⟩ := hp
  have hpow : (2 : Nat) ^ i ≤ 2 ^ 64 := Nat.pow_le_pow_right (by omega) (by omega)
  have hpos : 0 < (2 : Nat) ^ i := Nat.two_pow_pos i
  have hmain : ∀ w, w < 2 ^ 64 → floorAddress (2 ^ i) w = 2 ^ i * (w / 2 ^ i) := by
    intro w hw
    unfold floorAddress complement64 W
    have h1 : (2 ^ i + 2 ^ 64 - 1) % 2 ^ 64 = 2 ^ i - 1 := by
      have he : 2 ^ i + 2 ^ 64 - 1 = (2 ^ i - 1) + 2 ^ 64 := by omega
      rw [he, Nat.add_mod_right, Nat.mod_eq_of_lt (by omega)]
    rw [h1]
    have h2 : (2 ^ i - 1) % 2 ^ 64 = 2 ^ i - 1 := Nat.mod_eq_of_lt (by omega)
    rw [h2]
    have h3 : (2 ^ 64 - 1) - (2 ^ i - 1) = 2 ^ i * (2 ^ (64 - i) - 1) := by
      have hi64 : i + (64 - i) = 64 := by omega
      have he : (2 : Nat) ^ 64 = 2 ^ i * 2 ^ (64 - i) := by
        rw [← pow_add, hi64]
      have hm : 2 ^ i * (2 ^ (64 - i) - 1) = 2 ^ i * 2 ^ (64 - i) - 2 ^ i :=
        Nat.mul_sub_one (2 ^ i) (2 ^ (64 - i))
      have hp2 : 0 < (2 : Nat) ^ (64 - i) := Nat.two_pow_pos (64 - i)
      omega
    rw [h3]
    have hw2 : w < 2 ^ (i + (64 - i)) := by
      have : i + (64 - i) = 64 := by omega
      rw [this]
      exact hw
    exact land_block i (64 - i) w hw2
  have hself : floorAddress (2 ^ i) v = 2 ^ i * (v / 2 ^ i) := hmain v hv
  have hle : 2 ^ i * (v / 2 ^ i) ≤ v := by
    rw [Nat.mul_comm]
    exact Nat.div_mul_le_self v (2 ^ i)
  refine ⟨hself, ?_, ?_⟩
  · rw [hself, hmain (2 ^ i * (v / 2 ^ i)) (lt_of_le_of_lt hle hv),
      Nat.mul_div_cancel_left _ hpos]
  · rw [hself, Nat.mul_div_cancel_left _ hpos]

theorem c10_address_snapping_witness :
    (∃ i, i < 64 ∧ 4096 = 2 ^ i) ∧ 5000 < 2 ^ 64
    ∧ (floorAddress 4096 5000 = 4096 * (5000 / 4096)
      ∧ floorAddress 4096 (floorAddress 4096 5000) = floorAddress 4096 5000
      ∧ floorAddress 4096 5000 / 4096 = 5000 / 4096) :=
  ⟨⟨12, by omega, by norm_num⟩, by norm_num,
   c10_address_snapping 4096 5000 ⟨12, by omega, by norm_num⟩ (by norm_num)⟩

end Furrballs
